import Mathlib

/-!
Shallow embedding of `services/bufferhub/BufferHubService.cpp` (class
`android::frameworks::bufferhub::V1_0::implementation::BufferHubService`).

Modelling conventions:

* `wp<BufferClient>` / `sp<BufferClient>` — client objects are identified by a
  numeric id (pointer identity).  The service state carries a heap
  `clients : clientId → nodeId` (each `BufferClient` holds a
  `shared_ptr<BufferNode>`), and a set `live` of client ids whose strong
  reference count is still positive; promoting a weak pointer succeeds exactly
  for those.
* `std::map` / `std::set` members (`mTokenMap`, `mClientSet`) are association
  lists / lists; insertions prepend, lookup finds the first matching key, and
  `erase(iter)` removes exactly the found entry.
* `native_handle_t` token carriers hold `numFds` file descriptors and a list
  of integer slots.  Each `int` slot is modelled by its unsigned 32-bit
  reading (the `int` / `uint32_t` reinterpretation used by
  `registerToken` / `importBuffer` is a bijection per slot).
* `hidl_handle`'s `getNativeHandle() == nullptr` case is the `isNull` flag.
* The pair returned through `_hidl_cb(status, bufferClient, bufferTraits)` is
  a `ServiceReply`; of `BufferTraits` we keep the `bufferDesc` field the
  claims are about (an `Option`, `none` standing for the empty `{}` traits).
* `std::mt19937 mTokenEngine` is an external draw stream `engine : Nat → Nat`;
  each call to `engine()` yields the next draw reduced to 32 bits.
-/

namespace BufferHub

/-- `AHardwareBuffer_Desc` / `HardwareBufferDescription`: the two are
`memcpy`-interconvertible byte-identical descriptor layouts, so one Lean
structure models both. -/
structure AHardwareBufferDesc where
  width : Nat
  height : Nat
  layers : Nat
  format : Nat
  usage : Nat
  deriving DecidableEq, Repr

/-- One allocated buffer: descriptor, user metadata size, generated id and the
active-clients bitmask living in the shared metadata header. -/
structure BufferNode where
  mDesc : AHardwareBufferDesc
  mUserMetadataSize : Nat
  mId : Nat
  mActiveClientsBitMask : Nat
  deriving DecidableEq, Repr

/-- The `BufferHubStatus` values used by `BufferHubService.cpp`. -/
inductive BufferHubStatus where
  | noError
  | allocationFailed
  | invalidToken
  | bufferFreed
  | maxClient
  deriving DecidableEq, Repr

/-- What a `_hidl_cb(status, bufferClient, bufferTraits)` invocation carries:
the status, the returned client (by id, `none` for `nullptr`) and the
`bufferDesc` field of the returned `BufferTraits` (`none` for empty traits). -/
structure ServiceReply where
  status : BufferHubStatus
  bufferClient : Option Nat
  bufferTraits : Option AHardwareBufferDesc
  deriving DecidableEq, Repr

/-- A `hidl_handle` token carrier: null flag, fd count, and the integer slots
(each recorded by its unsigned 32-bit reading). -/
structure TokenHandle where
  isNull : Bool
  numFds : Nat
  ints : List Nat
  deriving DecidableEq, Repr

/-- The `BufferHubService` state: the heap of `BufferNode`s keyed by id, the
heap of `BufferClient`s (client id to node id), the set of clients that can
still be promoted, and the two registries `mClientSet` and `mTokenMap`,
together with the id sources. -/
structure ServiceState where
  nodes : List (Nat × BufferNode)
  clients : List (Nat × Nat)
  live : List Nat
  mClientSet : List Nat
  mTokenMap : List (Nat × Nat)
  nextClientId : Nat
  nextBufferId : Nat
  deriving DecidableEq, Repr

/-- First-match association-list lookup (`std::map::find`). -/
def lookupKey {β : Type} (k : Nat) : List (Nat × β) → Option β
  | [] => none
  | p :: rest => if p.1 = k then some p.2 else lookupKey k rest

/-- Erase the (first) entry with the given key (`std::map::erase(iter)` after a
successful `find`; the identity when the key is absent). -/
def eraseKey {β : Type} (k : Nat) : List (Nat × β) → List (Nat × β)
  | [] => []
  | p :: rest => if p.1 = k then rest else p :: eraseKey k rest

/-- Remove the first occurrence of an element (`std::find` followed by
`std::set::erase(iter)`, a no-op when absent). -/
def eraseFirst (c : Nat) : List Nat → List Nat
  | [] => []
  | x :: rest => if x = c then rest else x :: eraseFirst c rest

/-- Update the bitmask of the node stored under key `k` to `m`. -/
def updateNodeMask (k m : Nat) : List (Nat × BufferNode) → List (Nat × BufferNode)
  | [] => []
  | p :: rest =>
    if p.1 = k then (p.1, { p.2 with mActiveClientsBitMask := m }) :: rest
    else p :: updateNodeMask k m rest

/-- The size of the token space: tokens are `uint32_t`. -/
def tokenSpace : Nat := 4294967296

/-- Modelled from the spec: `BufferNode::AddNewActiveClientsBitToMask` is not
part of the given sources.  Spec 4.2: atomically find the lowest unset bit of
the consumer bitmask (fixed maximum of 32 slots), set it and return the new
client's bit; when all bits are exhausted return the sentinel `0` and leave
the mask unchanged.  Returns `(new mask, new client's state bit)`. -/
def addNewActiveClientsBitToMask (mask : Nat) : Nat × Nat :=
  match (List.range 32).find? (fun i => !(mask.testBit i)) with
  | none => (mask, 0)
  | some i => (mask ||| 2 ^ i, 2 ^ i)

/-- Promotion of a `wp<BufferClient>` combined with `getBufferNode()`:
succeeds iff the client still has strong references, yielding the id of the
node its `shared_ptr<BufferNode>` points at.  (A live client always has a heap
entry; the `else none` also covers the vacuous live-but-absent case that a
well-formed state never exhibits.) -/
def promoteClient (st : ServiceState) (c : Nat) : Option Nat :=
  if c ∈ st.live then lookupKey c st.clients else none

/-- The carrier-format check opening `BufferHubService::importBuffer`
(line 69): null native handle, or `numFds != 0`, or `numInts != 1`. -/
def malformedCarrier (th : TokenHandle) : Bool :=
  th.isNull || (th.numFds != 0) || (th.ints.length != 1)

/-- The token a carrier holds: `data[0]` read back as `uint32_t`. -/
def mintedToken (th : TokenHandle) : Nat := th.ints.headD 0

/-- `BufferHubService::allocateBuffer`.  The external allocator's verdict
(`node == nullptr || !node->IsValid()`) is the `allocatorValid` argument;
`BufferHubIdGenerator::getInstance().getId()` is drawn (advancing the
generator) before the validity check, exactly as in the source.  On success
the new node's bitmask has exactly bit 0 set (spec 4.2, the producer slot),
the new client is registered in `mClientSet`, and the reply echoes the input
`description` as the traits' `bufferDesc`. -/
def allocateBuffer (st : ServiceState) (description : AHardwareBufferDesc)
    (userMetadataSize : Nat) (allocatorValid : Bool) : ServiceReply × ServiceState :=
  let nodeId := st.nextBufferId
  let st0 := { st with nextBufferId := st.nextBufferId + 1 }
  if !allocatorValid then
    (⟨.allocationFailed, none, none⟩, st0)
  else
    let node : BufferNode :=
      { mDesc := description, mUserMetadataSize := userMetadataSize,
        mId := nodeId, mActiveClientsBitMask := 1 }
    let clientId := st0.nextClientId
    (⟨.noError, some clientId, some description⟩,
     { st0 with
        nodes := (nodeId, node) :: st0.nodes,
        clients := (clientId, nodeId) :: st0.clients,
        live := clientId :: st0.live,
        mClientSet := clientId :: st0.mClientSet,
        nextClientId := st0.nextClientId + 1 })

/-- `BufferHubService::importBuffer`: reject malformed carriers; look the token
up and erase it under the token-map lock; promote the minting client's weak
reference; clone the client onto the same node; claim a consumer-slot bit; on
success register the clone in `mClientSet` and reply with the node's
descriptor. -/
def importBuffer (st : ServiceState) (th : TokenHandle) : ServiceReply × ServiceState :=
  if malformedCarrier th then
    (⟨.invalidToken, none, none⟩, st)
  else
    let token := mintedToken th
    match lookupKey token st.mTokenMap with
    | none => (⟨.invalidToken, none, none⟩, st)
    | some originClientId =>
      let st1 := { st with mTokenMap := eraseKey token st.mTokenMap }
      match promoteClient st1 originClientId with
      | none => (⟨.bufferFreed, none, none⟩, st1)
      | some nodeId =>
        match lookupKey nodeId st1.nodes with
        | none =>
          -- Unreachable for well-formed states: a live client's
          -- `shared_ptr<BufferNode>` keeps its node alive.
          (⟨.bufferFreed, none, none⟩, st1)
        | some node =>
          let mp := addNewActiveClientsBitToMask node.mActiveClientsBitMask
          let st2 := { st1 with nodes := updateNodeMask nodeId mp.1 st1.nodes }
          if mp.2 = 0 then
            (⟨.maxClient, none, none⟩, st2)
          else
            let clientId := st2.nextClientId
            (⟨.noError, some clientId, some node.mDesc⟩,
             { st2 with
                clients := (clientId, nodeId) :: st2.clients,
                live := clientId :: st2.live,
                mClientSet := clientId :: st2.mClientSet,
                nextClientId := st2.nextClientId + 1 })

/-- `BufferHubService::registerToken`: under the token-map lock draw candidates
from the engine until one is not a current key, pack it into a fresh
`native_handle_t` with no fds and one int, record `token → weak(client)` and
return the handle.  The draw stream is `engine` (each value reduced to the
`uint32_t` range); the do-while loop is the least index whose draw is free,
total by hypothesis `h`. -/
def registerToken (st : ServiceState) (clientId : Nat) (engine : Nat → Nat)
    (h : ∃ n, lookupKey (engine n % tokenSpace) st.mTokenMap = none) :
    TokenHandle × ServiceState :=
  let token := engine (Nat.find h) % tokenSpace
  (⟨false, 0, [token]⟩,
   { st with mTokenMap := (token, clientId) :: st.mTokenMap })

/-- `BufferHubService::removeTokenByClient`: drop every token-map entry whose
weak reference identifies the given client. -/
def removeTokenByClient (st : ServiceState) (client : Nat) : ServiceState :=
  { st with mTokenMap := st.mTokenMap.filter (fun p => p.2 != client) }

/-- `BufferHubService::onClientClosed`: purge the client's tokens, then erase
the client from `mClientSet` (first occurrence found by `std::find`). -/
def onClientClosed (st : ServiceState) (client : Nat) : ServiceState :=
  let st1 := removeTokenByClient st client
  { st1 with mClientSet := eraseFirst client st1.mClientSet }

/-- Increment the count stored under key `k`, inserting `(k, 1)` when absent
(the `clientCount` accumulation step of `BufferHubService::debug`,
lines 157-163). -/
def bumpCount (k : Nat) : List (Nat × Nat) → List (Nat × Nat)
  | [] => [(k, 1)]
  | p :: rest => if p.1 = k then (p.1, p.2 + 1) :: rest else p :: bumpCount k rest

/-- The traversal of `mClientSet` in `BufferHubService::debug` (lines
151-166): promote each weak reference, skip the expired ones, and count the
live clients per buffer id. -/
def debugClientCountLoop (st : ServiceState) : List (Nat × Nat) → List Nat → List (Nat × Nat)
  | acc, [] => acc
  | acc, c :: rest =>
    match promoteClient st c with
    | some nodeId => debugClientCountLoop st (bumpCount nodeId acc) rest
    | none => debugClientCountLoop st acc rest

/-- The `clientCount` table of `BufferHubService::debug`: one row per buffer id
in the `Active Buffers` dump, carrying its live-client count. -/
def debugClientCount (st : ServiceState) : List (Nat × Nat) :=
  debugClientCountLoop st [] st.mClientSet

/-- The ids the promotable members of a client list point at, in order
(expired weak references skipped). -/
def promotedNodes (st : ServiceState) : List Nat → List Nat
  | [] => []
  | c :: rest =>
    match promoteClient st c with
    | some nodeId => nodeId :: promotedNodes st rest
    | none => promotedNodes st rest

/-- Occurrence count of an element. -/
def countOcc (k : Nat) : List Nat → Nat
  | [] => 0
  | x :: rest => (if x = k then 1 else 0) + countOcc k rest

/-- The number of registered clients in `mClientSet` that can still be
promoted and whose buffer node is `k`. -/
def liveRefCount (st : ServiceState) (k : Nat) : Nat :=
  countOcc k (promotedNodes st st.mClientSet)

/-- Keys of an association list are pairwise distinct (the `std::map` /
`std::set` uniqueness invariant). -/
abbrev KeysNodup {β : Type} (l : List (Nat × β)) : Prop :=
  (l.map Prod.fst).Nodup

/-- The empty broker state. -/
def emptyState : ServiceState :=
  { nodes := [], clients := [], live := [], mClientSet := [],
    mTokenMap := [], nextClientId := 0, nextBufferId := 0 }

/-! ### Concrete states for the witnesses -/

/-- A demonstration descriptor. -/
def demoDesc : AHardwareBufferDesc := { width := 64, height := 64, layers := 1, format := 1, usage := 3 }

/-- A demonstration buffer node with only the producer bit set. -/
def demoNode : BufferNode :=
  { mDesc := demoDesc, mUserMetadataSize := 0, mId := 0, mActiveClientsBitMask := 1 }

/-- A buffer node whose 32 consumer-slot bits are all taken. -/
def fullNode : BufferNode :=
  { mDesc := demoDesc, mUserMetadataSize := 0, mId := 0,
    mActiveClientsBitMask := tokenSpace - 1 }

/-- A state with one live client (id 7) on node 0 and one outstanding token 5. -/
def tokState : ServiceState :=
  { nodes := [(0, demoNode)], clients := [(7, 0)], live := [7], mClientSet := [7],
    mTokenMap := [(5, 7)], nextClientId := 8, nextBufferId := 1 }

/-- Like `tokState` but the minting client can no longer be promoted. -/
def deadState : ServiceState :=
  { tokState with live := [] }

/-- Like `tokState` but the node's consumer-slot space is exhausted. -/
def maxState : ServiceState :=
  { tokState with nodes := [(0, fullNode)] }

/-- A well-formed carrier holding token 5. -/
def tokHandle : TokenHandle := { isNull := false, numFds := 0, ints := [5] }

example : addNewActiveClientsBitToMask 1 = (3, 2) := by decide
example : addNewActiveClientsBitToMask (tokenSpace - 1) = (tokenSpace - 1, 0) := by decide
example : lookupKey 5 [(4, 0), (5, 7)] = some 7 := by decide
example : eraseKey 5 [(4, 0), (5, 7), (5, 8)] = [(4, 0), (5, 8)] := by decide

/-! ### Association-list lemmas -/

theorem lookupKey_eq_none_of_not_memKeys {β : Type} {k : Nat} {l : List (Nat × β)}
    (h : k ∉ l.map Prod.fst) : lookupKey k l = none := by
  induction l with
  | nil => rfl
  | cons p rest ih =>
    simp only [List.map_cons, List.mem_cons, not_or] at h
    have hne : p.1 ≠ k := fun hc => h.1 hc.symm
    simp only [lookupKey, if_neg hne]
    exact ih h.2

theorem memKeys_of_lookupKey_eq_some {β : Type} {k : Nat} {v : β} {l : List (Nat × β)}
    (h : lookupKey k l = some v) : k ∈ l.map Prod.fst := by
  induction l with
  | nil => simp [lookupKey] at h
  | cons p rest ih =>
    by_cases hp : p.1 = k
    · simp [hp]
    · simp only [lookupKey, if_neg hp] at h
      simp [ih h]

theorem mem_of_lookupKey_eq_some {β : Type} {k : Nat} {v : β} {l : List (Nat × β)}
    (h : lookupKey k l = some v) : (k, v) ∈ l := by
  induction l with
  | nil => simp [lookupKey] at h
  | cons p rest ih =>
    obtain ⟨p1, p2⟩ := p
    by_cases hp : p1 = k
    · subst hp
      simp only [lookupKey, if_pos rfl] at h
      injection h with h
      subst h
      exact List.mem_cons_self _ _
    · simp only [lookupKey] at h
      rw [if_neg hp] at h
      exact List.mem_cons_of_mem _ (ih h)

theorem lookupKey_of_mem_keysNodup {β : Type} {k : Nat} {v : β} {l : List (Nat × β)}
    (hn : KeysNodup l) (h : (k, v) ∈ l) : lookupKey k l = some v := by
  induction l with
  | nil => simp at h
  | cons p rest ih =>
    simp only [KeysNodup, List.map_cons, List.nodup_cons] at hn
    rcases List.mem_cons.1 h with heq | hmem
    · simp [lookupKey, heq.symm]
    · have hk : k ∈ rest.map Prod.fst := List.mem_map_of_mem Prod.fst hmem
      have hne : p.1 ≠ k := fun hc => hn.1 (hc ▸ hk)
      simp only [lookupKey, if_neg hne]
      exact ih hn.2 hmem

theorem lookupKey_eraseKey_self {β : Type} {k : Nat} {l : List (Nat × β)}
    (hn : KeysNodup l) : lookupKey k (eraseKey k l) = none := by
  induction l with
  | nil => rfl
  | cons p rest ih =>
    simp only [KeysNodup, List.map_cons, List.nodup_cons] at hn
    by_cases hp : p.1 = k
    · simp only [eraseKey, if_pos hp]
      exact lookupKey_eq_none_of_not_memKeys (hp ▸ hn.1)
    · simp only [eraseKey, if_neg hp, lookupKey, if_neg hp]
      exact ih hn.2

theorem mem_of_mem_eraseKey {β : Type} {k : Nat} {q : Nat × β} {l : List (Nat × β)}
    (h : q ∈ eraseKey k l) : q ∈ l := by
  induction l with
  | nil => exact h
  | cons p rest ih =>
    by_cases hp : p.1 = k
    · simp only [eraseKey, if_pos hp] at h
      exact List.mem_cons_of_mem p h
    · simp only [eraseKey, if_neg hp, List.mem_cons] at h
      rcases h with h1 | h2
      · exact h1 ▸ List.mem_cons_self p rest
      · exact List.mem_cons_of_mem p (ih h2)

theorem eraseKey_keysNodup {β : Type} {k : Nat} {l : List (Nat × β)}
    (hn : KeysNodup l) : KeysNodup (eraseKey k l) := by
  induction l with
  | nil => exact hn
  | cons p rest ih =>
    simp only [KeysNodup, List.map_cons, List.nodup_cons] at hn
    by_cases hp : p.1 = k
    · simpa only [eraseKey, if_pos hp] using hn.2
    · simp only [eraseKey, if_neg hp, KeysNodup, List.map_cons, List.nodup_cons]
      refine ⟨fun hc => hn.1 ?_, ih hn.2⟩
      rcases List.mem_map.1 hc with ⟨q, hq, hqk⟩
      exact hqk ▸ List.mem_map_of_mem Prod.fst (mem_of_mem_eraseKey hq)

theorem not_mem_eraseFirst_self {c : Nat} {l : List Nat}
    (hn : l.Nodup) : c ∉ eraseFirst c l := by
  induction l with
  | nil => simp [eraseFirst]
  | cons x rest ih =>
    simp only [List.nodup_cons] at hn
    by_cases hx : x = c
    · simpa only [eraseFirst, if_pos hx] using (hx ▸ hn.1)
    · simp only [eraseFirst, if_neg hx, List.mem_cons, not_or]
      exact ⟨fun hc => hx hc.symm, ih hn.2⟩

/-! ### Branch lemmas for `importBuffer` -/

theorem promoteClient_tokenMap_irrelevant (st : ServiceState) (m : List (Nat × Nat)) (c : Nat) :
    promoteClient { st with mTokenMap := m } c = promoteClient st c := rfl

theorem importBuffer_not_found (st : ServiceState) (th : TokenHandle) (t : Nat)
    (hm : malformedCarrier th = false) (hi : th.ints = [t])
    (hl : lookupKey t st.mTokenMap = none) :
    importBuffer st th = (⟨.invalidToken, none, none⟩, st) := by
  simp [importBuffer, hm, mintedToken, hi, hl]

theorem importBuffer_tokenMap (st : ServiceState) (th : TokenHandle) (t c : Nat)
    (hm : malformedCarrier th = false) (hi : th.ints = [t])
    (hl : lookupKey t st.mTokenMap = some c) :
    (importBuffer st th).2.mTokenMap = eraseKey t st.mTokenMap := by
  simp only [importBuffer, hm, Bool.false_eq_true, if_false, mintedToken, hi,
    List.headD_cons, hl]
  rcases hp : promoteClient { st with mTokenMap := eraseKey t st.mTokenMap } c with _ | nodeId
  · simp only [hp]
  · simp only [hp]
    rcases hn : lookupKey nodeId st.nodes with _ | node
    · simp only [hn]
    · simp only [hn]
      by_cases hz : (addNewActiveClientsBitToMask node.mActiveClientsBitMask).2 = 0
      · simp only [hz, if_true]
      · simp only [hz, if_false]

theorem lookupKey_filterClient_eq_none {t c : Nat} {l : List (Nat × Nat)}
    (hn : KeysNodup l) (hl : lookupKey t l = some c) :
    lookupKey t (l.filter (fun p => p.2 != c)) = none := by
  apply lookupKey_eq_none_of_not_memKeys
  intro hmem
  rcases List.mem_map.1 hmem with ⟨q, hq, hq1⟩
  rcases List.mem_filter.1 hq with ⟨hql, hqc⟩
  have hq2 : (t, q.2) ∈ l := by
    rw [← hq1]
    simpa using hql
  have : lookupKey t l = some q.2 := lookupKey_of_mem_keysNodup hn hq2
  rw [hl] at this
  injection this with this
  exact (bne_iff_ne.1 hqc) this.symm

/-! ### Claim theorems -/

/-- Claim C3: a malformed token carrier — null native handle, non-zero fd
count, or an int count different from one — makes `importBuffer` return
`InvalidToken` with no client and empty traits, leaving the whole service
state (in particular the token registry) untouched. -/
theorem importBuffer_malformed_rejected (st : ServiceState) (th : TokenHandle)
    (hm : malformedCarrier th = true) :
    importBuffer st th = (⟨.invalidToken, none, none⟩, st) := by
  simp [importBuffer, hm]

theorem importBuffer_malformed_rejected_witness :
    importBuffer tokState { isNull := false, numFds := 1, ints := [5] } =
      (⟨.invalidToken, none, none⟩, tokState) :=
  importBuffer_malformed_rejected tokState { isNull := false, numFds := 1, ints := [5] } rfl

/-- Claim C4: when the buffer node cannot be created or is reported invalid by
the allocator, `allocateBuffer` replies `AllocationFailed` with no client
handle, and neither the client set, the token map, nor any other registry
gains an entry (only the id generator has advanced, as in the source). -/
theorem allocateBuffer_failure_no_state (st : ServiceState)
    (description : AHardwareBufferDesc) (userMetadataSize : Nat) :
    let r := allocateBuffer st description userMetadataSize false
    r.1.status = .allocationFailed ∧ r.1.bufferClient = none ∧
    r.2.mClientSet = st.mClientSet ∧ r.2.mTokenMap = st.mTokenMap ∧
    r.2.clients = st.clients ∧ r.2.live = st.live ∧ r.2.nodes = st.nodes := by
  simp [allocateBuffer]

/-- Claim C1: a token present in the registry is consumed by `importBuffer` at
lookup time: whatever the rest of the import does, the token is absent from
the post-state registry, and a second `importBuffer` with the same carrier
returns `InvalidToken`. -/
theorem importBuffer_token_single_use (st : ServiceState) (th : TokenHandle) (t c : Nat)
    (hn : KeysNodup st.mTokenMap)
    (hm : malformedCarrier th = false) (hi : th.ints = [t])
    (hl : lookupKey t st.mTokenMap = some c) :
    lookupKey t (importBuffer st th).2.mTokenMap = none ∧
    (importBuffer (importBuffer st th).2 th).1 = (⟨.invalidToken, none, none⟩ : ServiceReply) := by
  have hmap := importBuffer_tokenMap st th t c hm hi hl
  have habsent : lookupKey t (importBuffer st th).2.mTokenMap = none := by
    rw [hmap]
    exact lookupKey_eraseKey_self hn
  exact ⟨habsent, by rw [importBuffer_not_found _ th t hm hi habsent]⟩

theorem importBuffer_token_single_use_witness :
    lookupKey 5 (importBuffer tokState tokHandle).2.mTokenMap = none ∧
    (importBuffer (importBuffer tokState tokHandle).2 tokHandle).1 =
      (⟨.invalidToken, none, none⟩ : ServiceReply) :=
  importBuffer_token_single_use tokState tokHandle 5 7 (by decide) (by decide) rfl (by decide)

/-- Claim C2: `onClientClosed` first drops every token-map entry whose weak
reference identifies the closing client and then removes the client from the
client set; afterwards `importBuffer` with any token that client had minted
returns `InvalidToken`. -/
theorem onClientClosed_purges_tokens (st : ServiceState) (c t : Nat) (th : TokenHandle)
    (hn : KeysNodup st.mTokenMap) (hcs : st.mClientSet.Nodup)
    (hm : malformedCarrier th = false) (hi : th.ints = [t])
    (hl : lookupKey t st.mTokenMap = some c) :
    (∀ p ∈ (onClientClosed st c).mTokenMap, p.2 ≠ c) ∧
    c ∉ (onClientClosed st c).mClientSet ∧
    (importBuffer (onClientClosed st c) th).1 = (⟨.invalidToken, none, none⟩ : ServiceReply) := by
  refine ⟨?_, ?_, ?_⟩
  · intro p hp
    have := (List.mem_filter.1 hp).2
    exact bne_iff_ne.1 this
  · exact not_mem_eraseFirst_self hcs
  · have habsent : lookupKey t (onClientClosed st c).mTokenMap = none :=
      lookupKey_filterClient_eq_none hn hl
    rw [importBuffer_not_found _ th t hm hi habsent]

theorem onClientClosed_purges_tokens_witness :
    (∀ p ∈ (onClientClosed tokState 7).mTokenMap, p.2 ≠ 7) ∧
    7 ∉ (onClientClosed tokState 7).mClientSet ∧
    (importBuffer (onClientClosed tokState 7) tokHandle).1 =
      (⟨.invalidToken, none, none⟩ : ServiceReply) :=
  onClientClosed_purges_tokens tokState 7 5 tokHandle (by decide) (by decide) (by decide) rfl
    (by decide)

/-- Claim C7: when the token is found but the minting client's weak reference
can no longer be promoted, `importBuffer` replies `BufferFreed` with no client
handle, and the token entry is nevertheless removed from the registry. -/
theorem importBuffer_origin_gone_bufferFreed (st : ServiceState) (th : TokenHandle) (t c : Nat)
    (hm : malformedCarrier th = false) (hi : th.ints = [t])
    (hl : lookupKey t st.mTokenMap = some c)
    (hn : KeysNodup st.mTokenMap)
    (hp : promoteClient st c = none) :
    (importBuffer st th).1 = (⟨.bufferFreed, none, none⟩ : ServiceReply) ∧
    (importBuffer st th).2.mTokenMap = eraseKey t st.mTokenMap ∧
    lookupKey t (importBuffer st th).2.mTokenMap = none := by
  have hmap := importBuffer_tokenMap st th t c hm hi hl
  refine ⟨?_, hmap, by rw [hmap]; exact lookupKey_eraseKey_self hn⟩
  simp only [importBuffer, hm, Bool.false_eq_true, if_false, mintedToken, hi,
    List.headD_cons, hl, promoteClient_tokenMap_irrelevant, hp]

theorem importBuffer_origin_gone_bufferFreed_witness :
    (importBuffer deadState tokHandle).1 = (⟨.bufferFreed, none, none⟩ : ServiceReply) ∧
    (importBuffer deadState tokHandle).2.mTokenMap = eraseKey 5 deadState.mTokenMap ∧
    lookupKey 5 (importBuffer deadState tokHandle).2.mTokenMap = none :=
  importBuffer_origin_gone_bufferFreed deadState tokHandle 5 7 (by decide) rfl (by decide)
    (by decide) (by decide)

/-- Claim C5: when the token resolves to a live client but the buffer's
consumer-slot space is exhausted (`AddNewActiveClientsBitToMask` returns the
sentinel `0`), `importBuffer` replies `MaxClientsReached` with no client
handle, the clone is not registered in the client set (nor anywhere else), and
only the looked-up token has been consumed from the registry. -/
theorem importBuffer_maxClients (st : ServiceState) (th : TokenHandle)
    (t c nodeId : Nat) (node : BufferNode)
    (hm : malformedCarrier th = false) (hi : th.ints = [t])
    (hl : lookupKey t st.mTokenMap = some c)
    (hp : promoteClient st c = some nodeId)
    (hnode : lookupKey nodeId st.nodes = some node)
    (hfull : (addNewActiveClientsBitToMask node.mActiveClientsBitMask).2 = 0) :
    (importBuffer st th).1 = (⟨.maxClient, none, none⟩ : ServiceReply) ∧
    (importBuffer st th).2.mClientSet = st.mClientSet ∧
    (importBuffer st th).2.clients = st.clients ∧
    (importBuffer st th).2.live = st.live ∧
    (importBuffer st th).2.mTokenMap = eraseKey t st.mTokenMap := by
  simp only [importBuffer, hm, Bool.false_eq_true, if_false, mintedToken, hi,
    List.headD_cons, hl, promoteClient_tokenMap_irrelevant, hp, hnode, hfull, if_true]
  simp

theorem importBuffer_maxClients_witness :
    (importBuffer maxState tokHandle).1 = (⟨.maxClient, none, none⟩ : ServiceReply) ∧
    (importBuffer maxState tokHandle).2.mClientSet = maxState.mClientSet ∧
    (importBuffer maxState tokHandle).2.clients = maxState.clients ∧
    (importBuffer maxState tokHandle).2.live = maxState.live ∧
    (importBuffer maxState tokHandle).2.mTokenMap = eraseKey 5 maxState.mTokenMap :=
  importBuffer_maxClients maxState tokHandle 5 7 0 fullNode (by decide) rfl (by decide)
    (by decide) (by decide) (by decide)

theorem not_memKeys_of_lookupKey_eq_none {β : Type} {k : Nat} {l : List (Nat × β)}
    (h : lookupKey k l = none) : k ∉ l.map Prod.fst := by
  induction l with
  | nil => simp
  | cons p rest ih =>
    by_cases hp : p.1 = k
    · simp only [lookupKey, if_pos hp] at h
      exact absurd h (by simp)
    · simp only [lookupKey, if_neg hp] at h
      simp only [List.map_cons, List.mem_cons, not_or]
      exact ⟨fun hc => hp hc.symm, ih h⟩

/-- Claim C6: the token minted by `registerToken` is distinct from every token
outstanding at insertion time (colliding draws are re-drawn until a free value
is found), and the post-state token map is the old one extended by exactly the
one entry mapping the new token to the client's weak reference. -/
theorem registerToken_fresh_and_inserts (st : ServiceState) (clientId : Nat)
    (engine : Nat → Nat)
    (h : ∃ n, lookupKey (engine n % tokenSpace) st.mTokenMap = none) :
    let r := registerToken st clientId engine h
    (∀ p ∈ st.mTokenMap, p.1 ≠ mintedToken r.1) ∧
    r.2.mTokenMap = (mintedToken r.1, clientId) :: st.mTokenMap := by
  intro r
  have htok : mintedToken r.1 = engine (Nat.find h) % tokenSpace := rfl
  have hfree : lookupKey (engine (Nat.find h) % tokenSpace) st.mTokenMap = none :=
    Nat.find_spec h
  refine ⟨?_, rfl⟩
  intro p hp hc
  exact not_memKeys_of_lookupKey_eq_none hfree
    ((htok ▸ hc) ▸ List.mem_map_of_mem Prod.fst hp)

theorem registerToken_fresh_and_inserts_witness :
    (∀ p ∈ tokState.mTokenMap,
        p.1 ≠ mintedToken (registerToken tokState 7 (fun _ => 9) ⟨0, by decide⟩).1) ∧
    (registerToken tokState 7 (fun _ => 9) ⟨0, by decide⟩).2.mTokenMap =
      (mintedToken (registerToken tokState 7 (fun _ => 9) ⟨0, by decide⟩).1, 7) ::
        tokState.mTokenMap :=
  registerToken_fresh_and_inserts tokState 7 (fun _ => 9) ⟨0, by decide⟩

/-- Claim C10: a freshly minted token handle always passes `importBuffer`'s
carrier-format check — non-null, zero fds, exactly one int — and that int,
read back as the unsigned 32-bit token, is exactly the key just inserted into
the token map (which maps it to the minting client). -/
theorem registerToken_carrier_wellformed (st : ServiceState) (clientId : Nat)
    (engine : Nat → Nat)
    (h : ∃ n, lookupKey (engine n % tokenSpace) st.mTokenMap = none) :
    let r := registerToken st clientId engine h
    malformedCarrier r.1 = false ∧
    r.1.isNull = false ∧ r.1.numFds = 0 ∧ r.1.ints.length = 1 ∧
    lookupKey (mintedToken r.1) r.2.mTokenMap = some clientId := by
  intro r
  refine ⟨rfl, rfl, rfl, rfl, ?_⟩
  have htok : mintedToken r.1 = engine (Nat.find h) % tokenSpace := rfl
  have hmap : r.2.mTokenMap =
      (engine (Nat.find h) % tokenSpace, clientId) :: st.mTokenMap := rfl
  rw [htok, hmap]
  simp [lookupKey]

theorem registerToken_carrier_wellformed_witness :
    malformedCarrier (registerToken emptyState 3 (fun _ => 9) ⟨0, rfl⟩).1 = false ∧
    (registerToken emptyState 3 (fun _ => 9) ⟨0, rfl⟩).1.isNull = false ∧
    (registerToken emptyState 3 (fun _ => 9) ⟨0, rfl⟩).1.numFds = 0 ∧
    (registerToken emptyState 3 (fun _ => 9) ⟨0, rfl⟩).1.ints.length = 1 ∧
    lookupKey (mintedToken (registerToken emptyState 3 (fun _ => 9) ⟨0, rfl⟩).1)
      (registerToken emptyState 3 (fun _ => 9) ⟨0, rfl⟩).2.mTokenMap = some 3 :=
  registerToken_carrier_wellformed emptyState 3 (fun _ => 9) ⟨0, rfl⟩

/-- Claim C9: a successful `allocateBuffer`, followed by `registerToken` on the
returned client and a successful `importBuffer` of that token, returns a
second client whose `bufferDesc` is byte-identical to the one `allocateBuffer`
returned (both equal the input `description`), and the two client handles
reference the same buffer node. -/
theorem allocate_mint_import_roundtrip (st : ServiceState)
    (description : AHardwareBufferDesc) (userMetadataSize : Nat) (engine : Nat → Nat)
    (h : ∃ n, lookupKey (engine n % tokenSpace)
            (allocateBuffer st description userMetadataSize true).2.mTokenMap = none) :
    let a := allocateBuffer st description userMetadataSize true
    let m := registerToken a.2 st.nextClientId engine h
    let i := importBuffer m.2 m.1
    a.1.status = .noError ∧
    a.1.bufferClient = some st.nextClientId ∧
    a.1.bufferTraits = some description ∧
    i.1.status = .noError ∧
    i.1.bufferTraits = some description ∧
    i.1.bufferClient = some (st.nextClientId + 1) ∧
    lookupKey st.nextClientId i.2.clients = some st.nextBufferId ∧
    lookupKey (st.nextClientId + 1) i.2.clients = some st.nextBufferId := by
  have hmask : addNewActiveClientsBitToMask 1 = (3, 2) := by decide
  have hne : st.nextClientId + 1 ≠ st.nextClientId := Nat.succ_ne_self _
  refine ⟨rfl, rfl, rfl, ?_, ?_, ?_, ?_, ?_⟩ <;>
    simp [allocateBuffer, registerToken, importBuffer, malformedCarrier, mintedToken,
      promoteClient, lookupKey, eraseKey, hmask, hne]

theorem allocate_mint_import_roundtrip_witness :
    let a := allocateBuffer emptyState demoDesc 16 true
    let m := registerToken a.2 emptyState.nextClientId (fun _ => 9) ⟨0, rfl⟩
    let i := importBuffer m.2 m.1
    a.1.status = .noError ∧
    a.1.bufferClient = some emptyState.nextClientId ∧
    a.1.bufferTraits = some demoDesc ∧
    i.1.status = .noError ∧
    i.1.bufferTraits = some demoDesc ∧
    i.1.bufferClient = some (emptyState.nextClientId + 1) ∧
    lookupKey emptyState.nextClientId i.2.clients = some emptyState.nextBufferId ∧
    lookupKey (emptyState.nextClientId + 1) i.2.clients = some emptyState.nextBufferId :=
  allocate_mint_import_roundtrip emptyState demoDesc 16 (fun _ => 9) ⟨0, rfl⟩

/-! ### Lemmas about the debug client-count table -/

theorem lookupKey_bumpCount (j k : Nat) (m : List (Nat × Nat)) :
    lookupKey j (bumpCount k m) =
      if j = k then some ((lookupKey j m).getD 0 + 1) else lookupKey j m := by
  induction m with
  | nil =>
    by_cases hj : j = k
    · simp [bumpCount, lookupKey, hj]
    · simp [bumpCount, lookupKey, hj, Ne.symm hj]
  | cons p rest ih =>
    by_cases hp : p.1 = k
    · by_cases hj : j = k
      · simp [bumpCount, lookupKey, hp, hj]
      · have hkj : k ≠ j := fun hc => hj hc.symm
        simp [bumpCount, lookupKey, hp, hj, hkj]
    · by_cases hpj : p.1 = j
      · have hj : j ≠ k := fun hc => hp (hpj ▸ hc)
        simp [bumpCount, lookupKey, hp, hpj, hj]
      · simp [bumpCount, lookupKey, hp, hpj, ih]

theorem memKeys_bumpCount {j k : Nat} {m : List (Nat × Nat)}
    (h : j ∈ (bumpCount k m).map Prod.fst) : j ∈ m.map Prod.fst ∨ j = k := by
  induction m with
  | nil =>
    simp [bumpCount] at h
    exact Or.inr h
  | cons p rest ih =>
    by_cases hp : p.1 = k
    · simp only [bumpCount, if_pos hp, List.map_cons, List.mem_cons] at h
      rcases h with h1 | h2
      · exact Or.inl (by simp [h1])
      · exact Or.inl (by simp [h2])
    · simp only [bumpCount, if_neg hp, List.map_cons, List.mem_cons] at h
      rcases h with h1 | h2
      · exact Or.inl (by simp [h1])
      · rcases ih h2 with h3 | h3
        · exact Or.inl (by simp [h3])
        · exact Or.inr h3

theorem keysNodup_bumpCount {k : Nat} {m : List (Nat × Nat)} (h : KeysNodup m) :
    KeysNodup (bumpCount k m) := by
  induction m with
  | nil => simp [bumpCount, KeysNodup]
  | cons p rest ih =>
    simp only [KeysNodup, List.map_cons, List.nodup_cons] at h
    by_cases hp : p.1 = k
    · simpa only [bumpCount, if_pos hp, KeysNodup, List.map_cons, List.nodup_cons] using h
    · simp only [bumpCount, if_neg hp, KeysNodup, List.map_cons, List.nodup_cons]
      refine ⟨fun hc => ?_, ih h.2⟩
      rcases memKeys_bumpCount hc with h1 | h1
      · exact h.1 h1
      · exact hp h1

theorem debugClientCountLoop_lookup (st : ServiceState) (l : List Nat) (j : Nat) :
    ∀ acc, lookupKey j (debugClientCountLoop st acc l) =
      if countOcc j (promotedNodes st l) = 0 then lookupKey j acc
      else some ((lookupKey j acc).getD 0 + countOcc j (promotedNodes st l)) := by
  induction l with
  | nil => intro acc; simp [debugClientCountLoop, promotedNodes, countOcc]
  | cons c rest ih =>
    intro acc
    cases hpc : promoteClient st c with
    | none =>
      simp only [debugClientCountLoop, hpc, promotedNodes]
      exact ih acc
    | some k =>
      simp only [debugClientCountLoop, hpc, promotedNodes, countOcc]
      rw [ih (bumpCount k acc)]
      simp only [lookupKey_bumpCount]
      by_cases hj : j = k
      · have h1 : (1 : Nat) + countOcc k (promotedNodes st rest) ≠ 0 := by omega
        by_cases h0 : countOcc k (promotedNodes st rest) = 0
        · simp [hj, h0, h1]
        · simp [hj, h0, h1, Nat.add_assoc]
      · have hkj : ¬(k = j) := fun hc => hj hc.symm
        simp [hj, hkj]

theorem keysNodup_debugClientCountLoop (st : ServiceState) (l : List Nat) :
    ∀ acc, KeysNodup acc → KeysNodup (debugClientCountLoop st acc l) := by
  induction l with
  | nil => intro acc h; exact h
  | cons c rest ih =>
    intro acc h
    cases hpc : promoteClient st c with
    | none => simpa only [debugClientCountLoop, hpc] using ih acc h
    | some k =>
      simp only [debugClientCountLoop, hpc]
      exact ih (bumpCount k acc) (keysNodup_bumpCount h)

theorem lookupKey_debugClientCount (st : ServiceState) (k : Nat) :
    lookupKey k (debugClientCount st) =
      if liveRefCount st k = 0 then none else some (liveRefCount st k) := by
  rw [debugClientCount, debugClientCountLoop_lookup st st.mClientSet k []]
  simp [lookupKey, liveRefCount]

/-- Claim C8: the `Active Buffers` table built by `debug` lists a buffer id
exactly when at least one registered client referencing it can still be
promoted, its `Clients` entry is exactly the number of such live clients, and
in particular no row ever shows a zero count (expired weak references are
skipped during the traversal). -/
theorem debug_active_buffers_live (st : ServiceState) (k c : Nat) :
    (k, c) ∈ debugClientCount st ↔ (c = liveRefCount st k ∧ 1 ≤ c) := by
  constructor
  · intro hmem
    have hnd : KeysNodup (debugClientCount st) :=
      keysNodup_debugClientCountLoop st st.mClientSet [] (by simp [KeysNodup])
    have hlk := lookupKey_of_mem_keysNodup hnd hmem
    rw [lookupKey_debugClientCount] at hlk
    by_cases h0 : liveRefCount st k = 0
    · rw [if_pos h0] at hlk
      exact absurd hlk (by simp)
    · rw [if_neg h0] at hlk
      injection hlk with hlk
      exact ⟨hlk.symm, by omega⟩
  · rintro ⟨hc, h1⟩
    have h0 : ¬(liveRefCount st k = 0) := by omega
    have : lookupKey k (debugClientCount st) = some c := by
      rw [lookupKey_debugClientCount, if_neg h0, hc]
    exact mem_of_lookupKey_eq_some this

end BufferHub
